import Mathlib

/-!
Shallow embedding of the MeiliSearch index-engine core: the update queue
(`next_update_id`, `update_status`, `all_updates_status`, `update_task`),
the settings applier (`apply_settings_update`, `apply_stop_words_update`),
highlight construction (`highlights_from_raw_document`), the document HTTP
handler (`find_identifier`, `update_multiple_documents`), `Index.document`
and `store.clear`, together with theorems checking the specification's
claims about them.

Machine integers (u64 document and update ids, u16 field ids and positions)
are modelled as `Nat`; the one place where a truncating cast occurs in the
code (`covered_area as u16` in highlight construction) is modelled with an
explicit `% 65536`.  The key-value store collaborator (heed/LMDB) is
modelled as an association list per sub-database; store-level I/O errors,
which belong to the out-of-scope collaborator, are not modelled.
-/

namespace Meili

/-! ## The key-value sub-database collaborator

Modelled from the spec: a sub-database is a finite map from keys to values
with `get`, `put`, `delete`, `clear`; the Updates and UpdatesResults views
additionally support `last()` returning the entry with the greatest key.
We represent a sub-database as an association list; `alGet` returns the
first binding of a key. -/

def alGet {K V : Type} [DecidableEq K] : List (K × V) → K → Option V
  | [], _ => none
  | (k', v) :: rest, k => if k' = k then some v else alGet rest k

def alErase {K V : Type} [DecidableEq K] (s : List (K × V)) (k : K) : List (K × V) :=
  s.filter (fun p => p.1 ≠ k)

def alPut {K V : Type} [DecidableEq K] (s : List (K × V)) (k : K) (v : V) : List (K × V) :=
  (k, v) :: alErase s k

/-- A store keyed by `u64` update ids (the Updates / UpdatesResults views). -/
abbrev KVStore (V : Type) : Type := List (Nat × V)

def kvGet {V : Type} (s : KVStore V) (k : Nat) : Option V := alGet s k

/-- `last()` of the Updates / UpdatesResults store views: the greatest key
present, `none` on an empty store.  (The code's `last_update` returns the
full entry and every caller keeps only the key.) -/
def kvLastKey {V : Type} : KVStore V → Option Nat
  | [] => none
  | (k, _) :: rest =>
    match kvLastKey rest with
    | none => some k
    | some m => some (max k m)

def kvPut {V : Type} (s : KVStore V) (k : Nat) (v : V) : KVStore V := alPut s k v

/-! ## JSON-shaped values and documents -/

/-- JSON-shaped values (the serde_json collaborator's value type). -/
inductive JVal : Type
  | null : JVal
  | bool (b : Bool) : JVal
  | num (n : Int) : JVal
  | str (s : String) : JVal
  | arr (xs : List JVal) : JVal
  | obj (fields : List (String × JVal)) : JVal

/-- A submitted document: an insertion-ordered map from attribute names to
JSON values (the IndexMap collaborator). -/
abbrev Doc : Type := List (String × JVal)

/-- Modelled from the spec: `value_to_string`, the conversion of a
user-supplied identifier JSON value to a string (strings and numbers
convert; other JSON shapes do not). -/
def jval_to_string : JVal → Option String
  | .str s => some s
  | .num n => some (toString n)
  | _ => none

/-- Modelled from the spec: DocumentId is a 64-bit integer derived by
hashing the user-supplied identifier string. -/
def compute_document_id (s : String) : Nat :=
  s.data.foldl (fun h c => (h * 65599 + c.toNat) % (2 ^ 64)) 5381

/-- ASCII lowercase folding of a string (the tokenizer collaborator's
lowercasing). -/
def toLowerStr (s : String) : String := String.mk (s.data.map Char.toLower)

/-- Modelled from the spec: the tokenizer collaborator splits UTF-8 text
into lowercased words.  Positional data beyond the token index is not
needed by any claim. -/
def tokenize (text : String) : List String :=
  ((text.splitOn " ").map toLowerStr).filter (fun w => w ≠ "")

/-! ## Errors (src/meilisearch-core/src/error.rs)

Only the error kinds the embedded functions can produce are modelled; the
remaining kinds wrap failures of out-of-scope collaborators (I/O, byte
serialization). -/

inductive UnsupportedOp : Type
  | SchemaAlreadyExists
  | CannotUpdateSchemaIdentifier
  | CannotReorderSchemaAttribute
  | CanOnlyIntroduceNewSchemaAttributesAtEnd
  | CannotRemoveSchemaAttribute
deriving DecidableEq, Repr

inductive Error : Type
  | MissingIdentifier
  | SchemaMissing
  | WordIndexMissing
  | MissingDocumentId
  | MaxFieldsLimitExceeded
  | UnsupportedOperationErr (op : UnsupportedOp)
deriving DecidableEq, Repr

def UnsupportedOp.message : UnsupportedOp → String
  | .SchemaAlreadyExists => "Cannot update index which already have a schema"
  | .CannotUpdateSchemaIdentifier => "Cannot update the identifier of a schema"
  | .CannotReorderSchemaAttribute => "Cannot reorder the attributes of a schema"
  | .CanOnlyIntroduceNewSchemaAttributesAtEnd =>
      "Can only introduce new attributes at end of a schema"
  | .CannotRemoveSchemaAttribute => "Cannot remove attributes from a schema"

/-- The Display impl of `Error` (src/meilisearch-core/src/error.rs). -/
def Error.message : Error → String
  | .MissingIdentifier => "schema cannot be build without identifier"
  | .SchemaMissing => "this index does not have a schema"
  | .WordIndexMissing => "this index does not have a word index"
  | .MissingDocumentId => "document id is missing"
  | .MaxFieldsLimitExceeded => "maximum field in a document is exceeded"
  | .UnsupportedOperationErr op => "unsupported operation; " ++ op.message

/-! ## Schema

Modelled from the spec (§4.1; the meilisearch-schema crate is not under
src/): the schema maps attribute names to stable field ids (a name's field
id is its position in `fields`), keeps the ordered searchable attributes
(`indexed`, whose positions are the IndexedPos values), the displayed and
ranked attribute names, the identifier attribute, and the
`index_new_fields` default.  Once a schema exists its identifier cannot
change; searchable attributes may only be appended, never reordered or
removed. -/

structure Schema : Type where
  identifier : String
  fields : List String
  indexed : List String
  displayed : List String
  ranked : List String
  index_new_fields : Bool
deriving DecidableEq, Repr

def Schema.with_identifier (id : String) : Schema :=
  { identifier := id, fields := [id], indexed := [], displayed := [],
    ranked := [], index_new_fields := true }

/-- `id(name) -> Option<FieldId>`: the position of the name in the field
table. -/
def Schema.id (s : Schema) (name : String) : Option Nat :=
  s.fields.findIdx? (fun n => n = name)

/-- `name(FieldId)`: the attribute name of a field id. -/
def Schema.fieldName (s : Schema) (fid : Nat) : Option String :=
  s.fields.get? fid

def Schema.register_one (s : Schema) (n : String) : Schema :=
  if s.fields.contains n then s else { s with fields := s.fields ++ [n] }

def Schema.register_all (s : Schema) (names : List String) : Schema :=
  names.foldl Schema.register_one s

/-- `update_indexed(ordered_names)`: replacement by diff; appends new names
and forbids reordering or removing the existing searchable attributes. -/
def Schema.update_indexed (s : Schema) (names : List String) : Except Error Schema :=
  if s.indexed.isPrefixOf names then
    .ok { s.register_all names with indexed := names }
  else
    .error (.UnsupportedOperationErr .CannotReorderSchemaAttribute)

def Schema.update_displayed (s : Schema) (names : List String) : Except Error Schema :=
  .ok { s.register_all names with displayed := names }

def Schema.update_ranked (s : Schema) (names : List String) : Except Error Schema :=
  .ok { s.register_all names with ranked := names }

/-- `set_identifier(name)`: fails if the identifier is already set with a
different value. -/
def Schema.set_identifier (s : Schema) (name : String) : Except Error Schema :=
  if s.identifier = name then .ok s
  else .error (.UnsupportedOperationErr .CannotUpdateSchemaIdentifier)

def Schema.set_index_new_fields (s : Schema) (v : Bool) : Schema :=
  { s with index_new_fields := v }

/-- `indexed_pos_to_field_id(pos)`: the field id of the searchable
attribute sitting at an indexed position. -/
def Schema.indexed_pos_to_field_id (s : Schema) (pos : Nat) : Option Nat :=
  (s.indexed.get? pos).bind s.id

/-! ## Settings

Modelled from the spec (§4.8 and §6; settings.rs is not under src/): a
`SettingsUpdate` carries one tri-state per settings field. -/

inductive UpdateState (T : Type) : Type
  | Nothing : UpdateState T
  | Clear : UpdateState T
  | Update (v : T) : UpdateState T
deriving DecidableEq, Repr

inductive RankingRule : Type
  | Typo | Words | Proximity | Attribute | WordsPosition | Exact
  | Asc (field : String)
  | Desc (field : String)
deriving DecidableEq, Repr

def RankingRule.get_field : RankingRule → Option String
  | .Asc field => some field
  | .Desc field => some field
  | _ => none

structure SettingsUpdate : Type where
  ranking_rules : UpdateState (List RankingRule)
  ranking_distinct : UpdateState String
  index_new_fields : UpdateState Bool
  searchable_attributes : UpdateState (List String)
  displayed_attributes : UpdateState (List String)
  identifier : UpdateState String
  stop_words : UpdateState (List String)
  synonyms : UpdateState (List (String × List String))
deriving DecidableEq, Repr

/-- `SettingsUpdate::default()`: every field absent. -/
def SettingsUpdate.default : SettingsUpdate :=
  { ranking_rules := .Nothing, ranking_distinct := .Nothing,
    index_new_fields := .Nothing, searchable_attributes := .Nothing,
    displayed_attributes := .Nothing, identifier := .Nothing,
    stop_words := .Nothing, synonyms := .Nothing }

/-! ## Update records and statuses (src/meilisearch-core/src/update/mod.rs) -/

inductive UpdateData : Type
  | ClearAll
  | Customs (data : List Nat)
  | DocumentsAddition (docs : List Doc)
  | DocumentsPartial (docs : List Doc)
  | DocumentsDeletion (ids : List Nat)
  | Settings (s : SettingsUpdate)

/-- `Update { data, enqueued_at }`; wall-clock times are modelled as `Nat`
tick counts supplied by the environment. -/
structure UpdateRec : Type where
  data : UpdateData
  enqueued_at : Nat

inductive UpdateType : Type
  | ClearAll
  | Customs
  | DocumentsAddition (number : Nat)
  | DocumentsPartial (number : Nat)
  | DocumentsDeletion (number : Nat)
  | Settings (settings : SettingsUpdate)

def UpdateData.update_type : UpdateData → UpdateType
  | .ClearAll => .ClearAll
  | .Customs _ => .Customs
  | .DocumentsAddition docs => .DocumentsAddition docs.length
  | .DocumentsPartial docs => .DocumentsPartial docs.length
  | .DocumentsDeletion ids => .DocumentsDeletion ids.length
  | .Settings s => .Settings s

/-- `ProcessedUpdateResult`; `duration` (f64 seconds in the code) is
modelled as a `Nat` tick count. -/
structure ProcessedUpdateResult : Type where
  update_id : Nat
  update_type : UpdateType
  error : Option String
  duration : Nat
  enqueued_at : Nat
  processed_at : Nat

structure EnqueuedUpdateResult : Type where
  update_id : Nat
  update_type : UpdateType
  enqueued_at : Nat

inductive UpdateStatus : Type
  | Enqueued (content : EnqueuedUpdateResult)
  | Failed (content : ProcessedUpdateResult)
  | Processed (content : ProcessedUpdateResult)

/-- The update id a status record reports. -/
def UpdateStatus.statusId : UpdateStatus → Nat
  | .Enqueued content => content.update_id
  | .Failed content => content.update_id
  | .Processed content => content.update_id

/-! ## The main store and the index state

The Main sub-database is poly-typed (spec §3): schema, words FST,
stop-words FST, synonyms FST, ranking rules, ranking-distinct attribute,
customs blob, document counter.  FST sets are modelled as lists of words
compared by membership. -/

structure MainStore : Type where
  schema : Option Schema
  words_fst : Option (List String)
  stop_words_fst : Option (List String)
  synonyms_fst : Option (List String)
  ranking_rules : Option (List RankingRule)
  ranking_distinct : Option String
  customs : Option (List Nat)
  number_of_documents : Nat

def MainStore.empty : MainStore :=
  { schema := none, words_fst := none, stop_words_fst := none,
    synonyms_fst := none, ranking_rules := none, ranking_distinct := none,
    customs := none, number_of_documents := 0 }

/-- A DocIndex entry of a posting list:
`{ document_id, attribute (an IndexedPos), word_index, char_index,
char_length }`. -/
structure DocIndexE : Type where
  document_id : Nat
  attr : Nat
  word_index : Nat
  char_index : Nat
  char_length : Nat
deriving DecidableEq, Repr

/-- The eight sub-databases of one index (src/meilisearch-core/src/store/mod.rs):
Main, PostingsLists, DocumentsFields, DocumentsFieldsCounts, Synonyms,
DocsWords in the main environment; Updates and UpdatesResults in the
update environment. -/
structure IndexState : Type where
  main : MainStore
  postings_lists : List (String × List DocIndexE)
  documents_fields : List ((Nat × Nat) × JVal)
  documents_fields_counts : List ((Nat × Nat) × Nat)
  synonyms : List (String × List String)
  docs_words : List (Nat × List String)
  updates : KVStore UpdateRec
  updates_results : KVStore ProcessedUpdateResult

def IndexState.empty : IndexState :=
  { main := MainStore.empty, postings_lists := [], documents_fields := [],
    documents_fields_counts := [], synonyms := [], docs_words := [],
    updates := [], updates_results := [] }

/-! ## The update queue (src/meilisearch-core/src/update/mod.rs) -/

/-- Rust's `cmp::max` on `Option<u64>` (`None` is smaller than any
`Some`). -/
def optionMax : Option Nat → Option Nat → Option Nat
  | none, b => b
  | some a, none => some a
  | some a, some b => some (max a b)

/-- `next_update_id` (update/mod.rs lines 186-201): one more than the
greatest key present in either update store, or 0 when both are empty. -/
def next_update_id (updates_store : KVStore UpdateRec)
    (updates_results_store : KVStore ProcessedUpdateResult) : Nat :=
  let last_update := kvLastKey updates_store
  let last_update_results_id := kvLastKey updates_results_store
  let max_update_id := optionMax last_update last_update_results_id
  max_update_id.elim 0 (fun n => n + 1)

/-- `update_status` (update/mod.rs lines 159-184). -/
def update_status (updates_store : KVStore UpdateRec)
    (updates_results_store : KVStore ProcessedUpdateResult)
    (update_id : Nat) : Option UpdateStatus :=
  match kvGet updates_results_store update_id with
  | some result =>
    if result.error.isSome then some (.Failed result)
    else some (.Processed result)
  | none =>
    match kvGet updates_store update_id with
    | some update =>
      some (.Enqueued { update_id := update_id,
                        update_type := update.data.update_type,
                        enqueued_at := update.enqueued_at })
    | none => none

/-- `push_settings_update` (update/settings_update.rs lines 14-26):
allocate the next update id and append the settings update under it. -/
def push_settings_update (updates_store : KVStore UpdateRec)
    (updates_results_store : KVStore ProcessedUpdateResult)
    (settings : SettingsUpdate) (now : Nat) : KVStore UpdateRec × Nat :=
  let last_update_id := next_update_id updates_store updates_results_store
  let update : UpdateRec := { data := .Settings settings, enqueued_at := now }
  (kvPut updates_store last_update_id update, last_update_id)

/-- Modelled from the spec (§4.4; documents_addition.rs is not under src/):
`DocumentsAddition::finalize` allocates the next update id and appends the
batched documents under it. -/
def push_documents_addition (updates_store : KVStore UpdateRec)
    (updates_results_store : KVStore ProcessedUpdateResult)
    (docs : List Doc) ( is_partial : Bool) (now : Nat) : KVStore UpdateRec × Nat :=
  let last_update_id := next_update_id updates_store updates_results_store
  let data := if is_partial then UpdateData.DocumentsPartial docs
              else UpdateData.DocumentsAddition docs
  (kvPut updates_store last_update_id { data := data, enqueued_at := now },
   last_update_id)

/-- `Index::all_updates_status` (store/mod.rs lines 211-237): walk ids
0..=last result id collecting statuses (remembering the last id that had
one), then walk the remaining ids up to the last enqueued id. -/
def all_updates_status (updates_store : KVStore UpdateRec)
    (updates_results_store : KVStore ProcessedUpdateResult) : List UpdateStatus :=
  let first :=
    match kvLastKey updates_results_store with
    | some last_id =>
      (List.range (last_id + 1)).foldl
        (fun (acc : List UpdateStatus × Nat) id =>
          match update_status updates_store updates_results_store id with
          | some u => (acc.1 ++ [u], id)
          | none => acc)
        (([] : List UpdateStatus), 0)
    | none => (([] : List UpdateStatus), 0)
  match kvLastKey updates_store with
  | some last_id =>
    first.1 ++ (List.range' (first.2 + 1) (last_id - first.2)).filterMap
      (fun id => update_status updates_store updates_results_store id)
  | none => first.1

/-! ## Update appliers

`apply_settings_update` and the stop-word functions are embedded from
src/meilisearch-core/src/update/settings_update.rs; the other appliers
(clear_all.rs, customs_update.rs, documents_addition.rs,
documents_deletion.rs are not under src/) are modelled from the spec
(§4.4 and §4.8). -/

/-- List-based set union, keeping membership semantics of an FST union. -/
def listUnion (a b : List String) : List String :=
  a ++ b.filter (fun x => ¬ a.contains x)

/-- List-based set difference (FST difference by membership). -/
def listDiff (a b : List String) : List String :=
  a.filter (fun x => ¬ b.contains x)

/-- Modelled from the spec: `apply_clear_all` clears every main-environment
sub-database the update task hands it (Main, DocumentsFields,
DocumentsFieldsCounts, PostingsLists, DocsWords) and resets the words FST
to the empty set.  The update-environment stores are untouched. -/
def apply_clear_all (st : IndexState) : IndexState :=
  { st with
    main := { MainStore.empty with words_fst := some [] },
    documents_fields := [],
    documents_fields_counts := [],
    postings_lists := [],
    docs_words := [] }

/-- Modelled from the spec: `apply_customs_update` writes the bytes to
`main.customs`. -/
def apply_customs_update (st : IndexState) (customs : List Nat) : IndexState :=
  { st with main := { st.main with customs := some customs } }

/-- Modelled from the spec (§4.3): index one document's fields.  Every
known field value is stored in DocumentsFields; each searchable field is
tokenized, its non-stop tokens produce DocIndex entries merged into the
posting lists, its token count is stored in DocumentsFieldsCounts, and the
document's word set is recorded in DocsWords.  Words longer than 1000
bytes are dropped. -/
def index_document (schema : Schema) (st : IndexState) (docid : Nat)
    (doc : Doc) : IndexState :=
  let stops := (st.main.stop_words_fst).getD []
  -- store every known field's raw value
  let stored := doc.filterMap
    (fun kv => (schema.id kv.1).map (fun fid => ((docid, fid), kv.2)))
  let documents_fields :=
    stored.foldl (fun acc e => alPut acc e.1 e.2) st.documents_fields
  -- tokenize the searchable fields
  let perField : List (Nat × List (Nat × String)) := doc.filterMap
    (fun kv =>
      (schema.indexed.findIdx? (fun n => n = kv.1)).map (fun pos =>
        let text := (jval_to_string kv.2).getD ""
        let toks := (tokenize text).enum.filter
          (fun t => ¬ stops.contains t.2 ∧ t.2.length ≤ 1000)
        (pos, toks)))
  let counts :=
    perField.foldl (fun acc pf => alPut acc (docid, pf.1) pf.2.length)
      st.documents_fields_counts
  let entries : List (String × DocIndexE) :=
    perField.flatMap (fun pf =>
      pf.2.map (fun t =>
        (t.2, { document_id := docid, attr := pf.1, word_index := t.1,
                char_index := t.1, char_length := t.2.length })))
  let postings :=
    entries.foldl
      (fun acc e => alPut acc e.1 ((alGet acc e.1).getD [] ++ [e.2]))
      st.postings_lists
  let words : List String := (entries.map (fun e => e.1)).dedup
  { st with
    documents_fields := documents_fields,
    documents_fields_counts := counts,
    postings_lists := postings,
    docs_words := alPut st.docs_words docid words }

/-- Modelled from the spec (§4.4): after an addition batch the words FST is
rebuilt by unioning the stored posting-list keys with the previous words
FST and subtracting the stop-words FST. -/
def rebuild_words_fst_after_addition (st : IndexState) : IndexState :=
  let keys := (st.postings_lists.map (fun p => p.1)).dedup
  let old := (st.main.words_fst).getD []
  let stops := (st.main.stop_words_fst).getD []
  { st with main := { st.main with
      words_fst := some (listDiff (listUnion keys old) stops) } }

/-- Modelled from the spec (§4.4): rebuild the words FST as the union of
the surviving posting-list keys (after a deletion batch). -/
def rebuild_words_fst_from_postings (st : IndexState) : IndexState :=
  { st with main := { st.main with
      words_fst := some ((st.postings_lists.map (fun p => p.1)).dedup) } }

/-- Modelled from the spec (§4.4): add one document of an addition batch;
the document id is the hash of its identifier attribute's value, and a
document without a usable identifier value fails the whole update. -/
def add_one_document (schema : Schema) (st : IndexState) (doc : Doc) :
    Except Error IndexState :=
  match (alGet doc schema.identifier).bind jval_to_string with
  | none => .error .MissingDocumentId
  | some idval => .ok (index_document schema st (compute_document_id idval) doc)

/-- Modelled from the spec (§4.4): `apply_documents_addition` requires a
schema, replaces each document whole, then rebuilds the words FST. -/
def apply_documents_addition (st : IndexState) (docs : List Doc) :
    Except Error IndexState :=
  match st.main.schema with
  | none => .error .SchemaMissing
  | some schema =>
    (docs.foldlM (add_one_document schema) st).map
      rebuild_words_fst_after_addition

/-- Modelled from the spec (§3): the stored fields of a document as a
(name, value) list, via the schema's field table. -/
def stored_document_fields (st : IndexState) (schema : Schema) (docid : Nat) : Doc :=
  st.documents_fields.filterMap (fun e =>
    if e.1.1 = docid then
      (schema.fieldName e.1.2).map (fun name => (name, e.2))
    else none)

/-- Top-level JSON object merge: fields of the patch replace fields of the
stored document; missing keys are preserved. -/
def merge_document (stored patch : Doc) : Doc :=
  stored.filter (fun kv => ¬ (patch.map (fun p => p.1)).contains kv.1) ++ patch

/-- Modelled from the spec (§4.4): overlay one patch document on its
stored fields and index the merged document. -/
def partial_add_one (schema : Schema) (acc : IndexState) (doc : Doc) :
    Except Error IndexState :=
  match (alGet doc schema.identifier).bind jval_to_string with
  | none => .error Error.MissingDocumentId
  | some idval =>
    let docid := compute_document_id idval
    let merged := merge_document (stored_document_fields acc schema docid) doc
    add_one_document schema acc merged

/-- Modelled from the spec (§4.4): a partial addition overlays the provided
fields on the stored document and applies the merge as a full addition. -/
def apply_documents_partial_addition (st : IndexState) (docs : List Doc) :
    Except Error IndexState :=
  match st.main.schema with
  | none => .error .SchemaMissing
  | some schema =>
    (docs.foldlM (partial_add_one schema) st).map rebuild_words_fst_after_addition

/-- Modelled from the spec (§4.4): delete one document: strip its DocIndex
entries from every word it contained (dropping emptied posting lists),
remove its DocumentsFields, DocumentsFieldsCounts and DocsWords rows. -/
def delete_one_document (st : IndexState) (docid : Nat) : IndexState :=
  let words := (alGet st.docs_words docid).getD []
  let postings :=
    (words.foldl
      (fun acc w =>
        match alGet acc w with
        | some entries => alPut acc w (entries.filter (fun e => e.document_id ≠ docid))
        | none => acc)
      st.postings_lists).filter (fun p => ¬ p.2.isEmpty)
  { st with
    postings_lists := postings,
    documents_fields := st.documents_fields.filter (fun e => e.1.1 ≠ docid),
    documents_fields_counts :=
      st.documents_fields_counts.filter (fun e => e.1.1 ≠ docid),
    docs_words := alErase st.docs_words docid }

/-- Modelled from the spec (§4.4): `apply_documents_deletion` requires a
schema, deletes each listed document and rebuilds the words FST from the
surviving posting-list keys. -/
def apply_documents_deletion (st : IndexState) (ids : List Nat) :
    Except Error IndexState :=
  match st.main.schema with
  | none => .error .SchemaMissing
  | some _ =>
    .ok (rebuild_words_fst_from_postings (ids.foldl delete_one_document st))

/-- `apply_stop_words_addition` (settings_update.rs lines 193-251): delete
the posting list of every added stop word, subtract the added words from
the main words FST when one is stored, and union them into the stop-words
FST. -/
def apply_stop_words_addition (st : IndexState) (addition : List String) :
    IndexState :=
  let postings := st.postings_lists.filter (fun p => ¬ addition.contains p.1)
  let new_words_fst :=
    match st.main.words_fst with
    | some words => some (listDiff words addition)
    | none => none
  let stop_fst := listUnion ((st.main.stop_words_fst).getD []) addition
  { st with
    postings_lists := postings,
    main := { st.main with
      words_fst := new_words_fst,
      stop_words_fst := some stop_fst } }

/-- `apply_stop_words_deletion` (settings_update.rs lines 253-289):
subtract the deleted words from the stop-words FST. -/
def apply_stop_words_deletion (st : IndexState) (deletion : List String) :
    IndexState :=
  { st with main := { st.main with
      stop_words_fst := some (listDiff ((st.main.stop_words_fst).getD []) deletion) } }

/-- `apply_stop_words_update` (settings_update.rs lines 155-191): diff the
new stop-word set against the stored stop-words FST, apply the addition
and the deletion, and report whether a full reindex is required (exactly
when the deletion set is non-empty). -/
def apply_stop_words_update (st : IndexState) (stop_words : List String) :
    IndexState × Bool :=
  let old_stop_words := (st.main.stop_words_fst).getD []
  let deletion := old_stop_words.filter (fun w => ¬ stop_words.contains w)
  let addition := stop_words.filter (fun w => ¬ old_stop_words.contains w)
  let st1 := if addition.isEmpty then st else apply_stop_words_addition st addition
  if deletion.isEmpty then (st1, false)
  else (apply_stop_words_deletion st1 deletion, true)

/-- `apply_synonyms_update` (settings_update.rs lines 291-324): rewrite the
synonyms store and the synonyms FST from scratch. -/
def apply_synonyms_update (st : IndexState)
    (synonyms : List (String × List String)) : IndexState :=
  let store := synonyms.foldl (fun acc kv => alPut acc kv.1 kv.2.dedup) []
  { st with
    synonyms := store,
    main := { st.main with
      synonyms_fst := some ((synonyms.map (fun kv => kv.1)).dedup) } }

/-- Modelled from the spec (§4.8; reindex_all_documents lives in the absent
documents_addition.rs): stream every document from DocumentsFields,
re-tokenize it under the current schema, rewrite the posting lists and
DocsWords, and rebuild the words FST.  The schema entry and the update
stores are not touched. -/
def reindex_all_documents (st : IndexState) : IndexState :=
  match st.main.schema with
  | none => st
  | some schema =>
    let docids := (st.documents_fields.map (fun e => e.1.1)).dedup
    let cleared := { st with
      postings_lists := ([] : List (String × List DocIndexE)),
      docs_words := ([] : List (Nat × List String)) }
    rebuild_words_fst_from_postings
      (docids.foldl
        (fun acc docid =>
          index_document schema acc docid (stored_document_fields st schema docid))
        cleared)

/-! ## The settings applier (src/meilisearch-core/src/update/settings_update.rs)

`apply_settings_update` is embedded as the source's sequence of per-field
blocks, one definition per block, composed in the source's order. -/

/-- settings_update.rs lines 35-43: take the stored schema, or derive a
fresh one from the settings' identifier; fail with `MissingIdentifier`
when there is neither. -/
def settings_derive_schema (st : IndexState) (ident : UpdateState String) :
    Except Error Schema :=
  match st.main.schema with
  | some schema => .ok schema
  | none =>
    match ident with
    | .Update id => .ok (Schema.with_identifier id)
    | _ => .error .MissingIdentifier

/-- settings_update.rs lines 45-59: the ranking_rules block; returns the
new schema, the new state and whether it set `must_reindex`. -/
def settings_apply_ranking_rules (schema : Schema) (st : IndexState)
    (u : UpdateState (List RankingRule)) :
    Except Error (Schema × IndexState × Bool) :=
  match u with
  | .Update v => do
    let ranked_field := v.filterMap RankingRule.get_field
    let schema ← schema.update_ranked ranked_field
    .ok (schema,
         { st with main := { st.main with ranking_rules := some v } },
         true)
  | .Clear => do
    let schema ← schema.update_ranked []
    .ok (schema,
         { st with main := { st.main with ranking_rules := none } },
         true)
  | .Nothing => .ok (schema, st, false)

/-- settings_update.rs lines 61-69: the ranking_distinct block. -/
def settings_apply_ranking_distinct (st : IndexState)
    (u : UpdateState String) : IndexState :=
  match u with
  | .Update v => { st with main := { st.main with ranking_distinct := some v } }
  | .Clear => { st with main := { st.main with ranking_distinct := none } }
  | .Nothing => st

/-- settings_update.rs lines 71-79: the index_new_fields block. -/
def settings_apply_index_new_fields (schema : Schema)
    (u : UpdateState Bool) : Schema :=
  match u with
  | .Update v => schema.set_index_new_fields v
  | .Clear => schema.set_index_new_fields true
  | .Nothing => schema

/-- settings_update.rs lines 81-92: the searchable_attributes block. -/
def settings_apply_searchable (schema : Schema)
    (u : UpdateState (List String)) : Except Error (Schema × Bool) :=
  match u with
  | .Update v => do
    let schema ← schema.update_indexed v
    .ok (schema, true)
  | .Clear => do
    let schema ← schema.update_indexed []
    .ok (schema, true)
  | .Nothing => .ok (schema, false)

/-- settings_update.rs lines 93-100: the displayed_attributes block. -/
def settings_apply_displayed (schema : Schema)
    (u : UpdateState (List String)) : Except Error Schema :=
  match u with
  | .Update v => schema.update_displayed v
  | .Clear => schema.update_displayed []
  | .Nothing => .ok schema

/-- `main.put_schema`. -/
def put_schema (st : IndexState) (schema : Schema) : IndexState :=
  { st with main := { st.main with schema := some schema } }

/-- `main.delete_schema`. -/
def delete_schema (st : IndexState) : IndexState :=
  { st with main := { st.main with schema := none } }

/-- settings_update.rs lines 102-111: the identifier block; an `Update`
re-asserts the identifier (failing if it differs) before the schema is
stored, and also sets `must_reindex`; any other state just stores the
schema. -/
def settings_apply_identifier (schema : Schema) (st : IndexState)
    (u : UpdateState String) : Except Error (IndexState × Bool) :=
  match u with
  | .Update v => do
    let schema ← schema.set_identifier v
    .ok (put_schema st schema, true)
  | _ => .ok (put_schema st schema, false)

/-- settings_update.rs lines 113-125: the stop_words block; an `Update`
applies the given set, a `Clear` applies the empty set, and the reindex
flag is the one `apply_stop_words_update` reports. -/
def settings_apply_stop_words (st : IndexState)
    (u : UpdateState (List String)) : IndexState × Bool :=
  match u with
  | .Update stop_words => apply_stop_words_update st stop_words
  | .Clear => apply_stop_words_update st []
  | .Nothing => (st, false)

/-- settings_update.rs lines 127-131: the synonyms block. -/
def settings_apply_synonyms (st : IndexState)
    (u : UpdateState (List (String × List String))) : IndexState :=
  match u with
  | .Update synonyms => apply_synonyms_update st synonyms
  | .Clear => apply_synonyms_update st []
  | .Nothing => st

/-- `apply_settings_update` (settings_update.rs lines 28-153): derive the
schema, apply each settings block in order, store the schema, reindex when
any block demanded it, and — when the identifier is `Clear` — delete the
schema last. -/
def apply_settings_update (st : IndexState) (settings : SettingsUpdate) :
    Except Error IndexState := do
  let schema0 ← settings_derive_schema st settings.identifier
  let (schema1, st1, r1) ←
    settings_apply_ranking_rules schema0 st settings.ranking_rules
  let st2 := settings_apply_ranking_distinct st1 settings.ranking_distinct
  let schema2 := settings_apply_index_new_fields schema1 settings.index_new_fields
  let (schema3, r2) ← settings_apply_searchable schema2 settings.searchable_attributes
  let schema4 ← settings_apply_displayed schema3 settings.displayed_attributes
  let (st3, r3) ← settings_apply_identifier schema4 st2 settings.identifier
  let (st4, r4) := settings_apply_stop_words st3 settings.stop_words
  let st5 := settings_apply_synonyms st4 settings.synonyms
  let st6 := if r1 || r2 || r3 || r4 then reindex_all_documents st5 else st5
  match settings.identifier with
  | .Clear => .ok (delete_schema st6)
  | _ => .ok st6

/-! ## The update task (src/meilisearch-core/src/update/mod.rs lines 203-326) -/

/-- The dispatch of `update_task` on the update's data: the update type
reported and the result of the applied function.  An `ok` result carries
the mutated store state; on an `error` the caller aborts the write
transaction, so no store mutation survives. -/
def dispatch_update (st : IndexState) (data : UpdateData) :
    UpdateType × Except Error IndexState :=
  match data with
  | .ClearAll => (.ClearAll, .ok (apply_clear_all st))
  | .Customs customs => (.Customs, .ok (apply_customs_update st customs))
  | .DocumentsAddition docs =>
    (.DocumentsAddition docs.length, apply_documents_addition st docs)
  | .DocumentsPartial docs =>
    (.DocumentsPartial docs.length, apply_documents_partial_addition st docs)
  | .DocumentsDeletion ids =>
    (.DocumentsDeletion ids.length, apply_documents_deletion st ids)
  | .Settings settings =>
    (.Settings settings, apply_settings_update st settings)

/-- `update_task`: dispatch on the update data, then record a
`ProcessedUpdateResult` whose `error` field is the dispatched result's
error message, if any (`result.map_err(|e| e.to_string()).err()`).
`duration` and `processed_at` come from the environment clock.  The
returned state is the mutated one on success and the unchanged one on
failure (the caller aborts the transaction). -/
def update_task (st : IndexState) (update_id : Nat) (update : UpdateRec)
    (duration : Nat) (processed_at : Nat) : IndexState × ProcessedUpdateResult :=
  let dispatched := dispatch_update st update.data
  let status : ProcessedUpdateResult :=
    { update_id := update_id,
      update_type := dispatched.1,
      error := match dispatched.2 with
        | .ok _ => none
        | .error e => some e.message,
      duration := duration,
      enqueued_at := update.enqueued_at,
      processed_at := processed_at }
  (match dispatched.2 with
   | .ok st2 => st2
   | .error _ => st, status)

/-! ## Highlight construction (src/meilisearch-core/src/lib.rs lines 49-95)

`prefix_damerau_levenshtein` lives in the absent levenshtein.rs and is
passed as a function parameter returning `(distance, matched_prefix_len)`;
query strings and matched input words are byte strings (`List Nat`). -/

/-- A `Highlight` (meilisearch-types): the field id of the matched
attribute, and the covered character window.  `char_length` is a u16 in
the record, hence the `% 65536` where it is written. -/
structure Highlight : Type where
  attr : Nat
  char_index : Nat
  char_length : Nat
deriving DecidableEq, Repr

/-- A posting-list view held in the query arena: the matched input word
(the posting-list key, as bytes) and its DocIndex entries. -/
structure PostingsListView : Type where
  input : List Nat
  entries : List DocIndexE

/-- A query word automaton, of which highlight construction uses only the
original query string (as bytes). -/
structure QueryWordAutomaton : Type where
  query : List Nat

/-- A bare match of a raw document: the query word it matched and the
arena handle of the posting-list view. -/
structure BareMatch : Type where
  query_index : Nat
  postings_list : Nat
  is_exact : Bool

structure RawDocument : Type where
  id : Nat
  bare_matches : List BareMatch

/-- Modelled from the spec: `ReorderedAttrs` translates an IndexedPos back
to the attribute it stood for before searchable attributes were
reordered. -/
structure ReorderedAttrs : Type where
  reverse_map : List (Nat × Nat)

def ReorderedAttrs.reverse (sa : ReorderedAttrs) (pos : Nat) : Option Nat :=
  alGet sa.reverse_map pos

/-- The inner loop of `highlights_from_raw_document` for one bare match:
for each DocIndex of the posting list, the covered area is the whole input
when the query is longer, and the matched prefix length of
`prefix_damerau_levenshtein(query, input)` otherwise; the attribute is
translated from IndexedPos to FieldId (skipping the entry when the schema
cannot translate it). -/
def bare_match_highlights (pdl : List Nat → List Nat → Nat × Nat)
    (automatons : List QueryWordAutomaton) (arena : List PostingsListView)
    (searchable_attrs : Option ReorderedAttrs) (schema : Schema)
    (bm : BareMatch) : List Highlight :=
  let postings_list := arena.getD bm.postings_list ⟨[], []⟩
  let input := postings_list.input
  let query := (automatons.getD bm.query_index ⟨[]⟩).query
  postings_list.entries.filterMap (fun di =>
    let covered_area :=
      if query.length > input.length then input.length
      else (pdl query input).2
    let attr0 :=
      ((searchable_attrs.bind (fun sa => sa.reverse di.attr)).getD di.attr)
    match schema.indexed_pos_to_field_id attr0 with
    | some field_id =>
      some { attr := field_id, char_index := di.char_index,
             char_length := covered_area % 65536 }
    | none => none)

/-- `highlights_from_raw_document` (lib.rs lines 49-95): the concatenation
of the highlights of every bare match of the raw document. -/
def highlights_from_raw_document (pdl : List Nat → List Nat → Nat × Nat)
    (raw_document : RawDocument) (automatons : List QueryWordAutomaton)
    (arena : List PostingsListView) (searchable_attrs : Option ReorderedAttrs)
    (schema : Schema) : List Highlight :=
  raw_document.bare_matches.flatMap
    (bare_match_highlights pdl automatons arena searchable_attrs schema)

/-! ## The document HTTP route (src/meilisearch-http/src/routes/document.rs) -/

/-- `contains` on character lists: does `s` contain `pat` as a contiguous
sub-list? -/
def listContainsSub (pat : List Char) : List Char → Bool
  | [] => pat.isEmpty
  | c :: rest => pat.isPrefixOf (c :: rest) || listContainsSub pat rest

/-- Rust's `str::contains` for a literal pattern. -/
def containsSub (s pat : String) : Bool :=
  listContainsSub pat.data s.data

/-- `find_identifier` (document.rs lines 112-119): the first key of the
document whose lowercased form contains "id". -/
def find_identifier (document : Doc) : Option String :=
  (document.map (fun kv => kv.1)).find?
    (fun key => containsSub (toLowerStr key) "id")

/-- What the document-update handler answers with: 400 Bad Request with a
message, or 202 Accepted with the allocated update id.  (Auth and JSON
decoding failures happen before the embedded fragment and are out of
scope.) -/
inductive HttpResponse : Type
  | badRequest (message : String)
  | accepted (update_id : Nat)
deriving DecidableEq, Repr

/-- `update_multiple_documents` (document.rs lines 127-170): when the index
has no schema, take the identifier from the query parameter or infer it
from the first document's keys, failing with 400 "Could not infer a
schema" when neither gives one; push the settings update creating the
schema, then push the documents addition and answer 202 with its update
id. -/
def update_multiple_documents (st : IndexState)
    (query_identifier : Option String) (data : List Doc) ( is_partial : Bool)
    (now : Nat) : IndexState × HttpResponse :=
  match st.main.schema with
  | none =>
    let inferred :=
      match query_identifier with
      | some id => some id
      | none => data.head?.bind find_identifier
    match inferred with
    | none => (st, .badRequest "Could not infer a schema")
    | some id =>
      let settings := { SettingsUpdate.default with identifier := .Update id }
      let pushed := push_settings_update st.updates st.updates_results settings now
      let added :=
        push_documents_addition pushed.1 st.updates_results data is_partial now
      ({ st with updates := added.1 }, .accepted added.2)
  | some _ =>
    let added :=
      push_documents_addition st.updates st.updates_results data is_partial now
    ({ st with updates := added.1 }, .accepted added.2)

/-! ## Index::document and store::clear (src/meilisearch-core/src/store/mod.rs) -/

/-- Modelled from the spec: the serde Deserializer walks the stored fields
of the document, keeping those whose field id passes the attributes
filter, and yields them as a (name, value) record. -/
def deserialize_document (st : IndexState) (schema : Schema)
    (fields : Option (List Nat)) (document_id : Nat) : Doc :=
  st.documents_fields.filterMap (fun e =>
    let wanted := match fields with
      | some fs => fs.contains e.1.2
      | none => true
    if e.1.1 = document_id ∧ wanted = true then
      (schema.fieldName e.1.2).map (fun name => (name, e.2))
    else none)

/-- `Index::document` (store/mod.rs lines 117-140): fails with
`SchemaMissing` when the index stores no schema; otherwise translates the
attribute filter through the schema and deserializes the document. -/
def Index.document (st : IndexState) (attributes : Option (List String))
    (document_id : Nat) : Except Error (Option Doc) :=
  match st.main.schema with
  | none => .error Error.SchemaMissing
  | some schema =>
    let fields := attributes.map (fun attrs => attrs.filterMap schema.id)
    .ok (some (deserialize_document st schema fields document_id))

/-- `store::clear` (store/mod.rs lines 368-383): clear all eight
sub-databases of the index, the update-environment Updates and
UpdatesResults stores included. -/
def store_clear (_st : IndexState) : IndexState :=
  { main := MainStore.empty,
    postings_lists := [],
    documents_fields := [],
    documents_fields_counts := [],
    synonyms := [],
    docs_words := [],
    updates := [],
    updates_results := [] }

/-! ## Store-model lemmas -/

theorem alGet_mem {K V : Type} [DecidableEq K] :
    ∀ (s : List (K × V)) (k : K) (v : V), alGet s k = some v → (k, v) ∈ s := by
  intro s
  induction s with
  | nil => intro k v h; simp [alGet] at h
  | cons p rest ih =>
    intro k v h
    obtain ⟨k', v'⟩ := p
    by_cases hk : k' = k
    · subst hk
      simp [alGet] at h
      simp [h]
    · simp [alGet, hk] at h
      exact List.mem_cons_of_mem _ (ih k v h)

theorem mem_alGet_isSome {K V : Type} [DecidableEq K] :
    ∀ (s : List (K × V)) (k : K) (v : V), (k, v) ∈ s → (alGet s k).isSome := by
  intro s
  induction s with
  | nil => intro k v h; simp at h
  | cons p rest ih =>
    intro k v h
    obtain ⟨k', v'⟩ := p
    by_cases hk : k' = k
    · subst hk; simp [alGet]
    · rcases List.mem_cons.mp h with h1 | h1
      · exact absurd (congrArg Prod.fst h1).symm hk
      · simpa [alGet, hk] using ih k v h1

theorem alGet_eq_none {K V : Type} [DecidableEq K] :
    ∀ (s : List (K × V)) (k : K), alGet s k = none ↔ ∀ p ∈ s, p.1 ≠ k := by
  intro s
  induction s with
  | nil => intro k; simp [alGet]
  | cons p rest ih =>
    intro k
    obtain ⟨k', v'⟩ := p
    by_cases hk : k' = k
    · subst hk; simp [alGet]
    · simp [alGet, hk, ih k]

theorem alGet_alPut_same {K V : Type} [DecidableEq K] (s : List (K × V)) (k : K) (v : V) :
    alGet (alPut s k v) k = some v := by
  simp [alPut, alGet]

theorem kvLastKey_eq_nil_aux {V : Type} :
    ∀ (s : KVStore V), kvLastKey s = none → s = [] := by
  intro s h
  cases s with
  | nil => rfl
  | cons p rest =>
    rw [kvLastKey] at h
    rcases hrest : kvLastKey rest with _ | m' <;> simp [hrest] at h

theorem kvLastKey_le {V : Type} :
    ∀ (s : KVStore V) (m : Nat), kvLastKey s = some m → ∀ p ∈ s, p.1 ≤ m := by
  intro s
  induction s with
  | nil => intro m h; simp [kvLastKey] at h
  | cons p rest ih =>
    intro m h q hq
    obtain ⟨k, v⟩ := p
    rcases hrest : kvLastKey rest with _ | m'
    · rw [kvLastKey, hrest] at h
      simp at h
      rcases List.mem_cons.mp hq with h1 | h1
      · simp [h1, ← h]
      · rw [kvLastKey_eq_nil_aux rest hrest] at h1
        simp at h1
    · rw [kvLastKey, hrest] at h
      simp at h
      rcases List.mem_cons.mp hq with h1 | h1
      · subst h1
        simp only [← h]
        exact Nat.le_max_left k m'
      · have := ih m' hrest q h1
        have h2 := Nat.le_max_right k m'
        omega

theorem kvLastKey_mem {V : Type} :
    ∀ (s : KVStore V) (m : Nat), kvLastKey s = some m → ∃ v, (m, v) ∈ s := by
  intro s
  induction s with
  | nil => intro m h; simp [kvLastKey] at h
  | cons p rest ih =>
    intro m h
    obtain ⟨k, v⟩ := p
    rcases hrest : kvLastKey rest with _ | m'
    · rw [kvLastKey, hrest] at h
      simp at h
      exact ⟨v, by simp [h]⟩
    · rw [kvLastKey, hrest] at h
      simp at h
      rcases max_choice k m' with hmax | hmax
      · exact ⟨v, by simp [← h, hmax]⟩
      · obtain ⟨v', hv'⟩ := ih m' hrest
        exact ⟨v', by rw [← h, hmax]; exact List.mem_cons_of_mem _ hv'⟩

theorem optionMax_le_left :
    ∀ (a : Nat) (b : Option Nat) (m : Nat), optionMax (some a) b = some m → a ≤ m := by
  intro a b m h
  cases b with
  | none => simp [optionMax] at h; omega
  | some b' => simp [optionMax] at h; omega

theorem optionMax_le_right :
    ∀ (a : Option Nat) (b : Nat) (m : Nat), optionMax a (some b) = some m → b ≤ m := by
  intro a b m h
  cases a with
  | none => simp [optionMax] at h; omega
  | some a' => simp [optionMax] at h; omega

/-- Every key present in the Updates store is strictly below the next
allocated update id. -/
theorem key_lt_next_update_id_left (u : KVStore UpdateRec)
    (r : KVStore ProcessedUpdateResult) :
    ∀ p ∈ u, p.1 < next_update_id u r := by
  intro p hp
  rcases hu : kvLastKey u with _ | lu
  · rw [kvLastKey_eq_nil_aux u hu] at hp; simp at hp
  · have hple := kvLastKey_le u lu hu p hp
    rcases hr : kvLastKey r with _ | lr
    · simp [next_update_id, hu, hr, optionMax]
      omega
    · simp [next_update_id, hu, hr, optionMax]
      have := Nat.le_max_left lu lr
      omega

/-- C1: for every state of the Updates and UpdatesResults stores,
`next_update_id` returns the maximum of the two stores' last keys plus
one, and 0 when both stores are empty; pushing an update at the allocated
id makes every subsequently allocated id strictly larger. -/
theorem next_update_id_spec :
    ∀ (u : KVStore UpdateRec) (r : KVStore ProcessedUpdateResult)
      (settings : SettingsUpdate) (now : Nat),
    (u = [] ∧ r = [] → next_update_id u r = 0) ∧
    (∀ m, optionMax (kvLastKey u) (kvLastKey r) = some m →
      next_update_id u r = m + 1) ∧
    (push_settings_update u r settings now).2 <
      next_update_id (push_settings_update u r settings now).1 r := by
  intro u r settings now
  refine ⟨?_, ?_, ?_⟩
  · rintro ⟨hu, hr⟩
    subst hu; subst hr
    rfl
  · intro m h
    simp [next_update_id, h]
  · have hmem :
        (next_update_id u r,
          ({ data := .Settings settings, enqueued_at := now } : UpdateRec)) ∈
          (push_settings_update u r settings now).1 := by
      simp [push_settings_update, kvPut, alPut]
    have h := key_lt_next_update_id_left (push_settings_update u r settings now).1 r _ hmem
    simpa [push_settings_update] using h

/-- C2: `update_status` answers `Failed` exactly when a result record with
an error message exists for the id, `Processed` exactly when an error-free
result record exists, `Enqueued` exactly when no result record exists but
an Update record does, and `none` when neither store holds the id; and the
`ProcessedUpdateResult` recorded by `update_task` has `error = none` iff
the dispatched apply function succeeded. -/
theorem update_status_error_spec :
    ∀ (u : KVStore UpdateRec) (r : KVStore ProcessedUpdateResult) (id : Nat)
      (st : IndexState) (upd : UpdateRec) (dur pa : Nat),
    ((∃ res, update_status u r id = some (.Failed res)) ↔
      (∃ res, kvGet r id = some res ∧ res.error.isSome)) ∧
    ((∃ res, update_status u r id = some (.Processed res)) ↔
      (∃ res, kvGet r id = some res ∧ res.error = none)) ∧
    ((∃ e, update_status u r id = some (.Enqueued e)) ↔
      (kvGet r id = none ∧ (kvGet u id).isSome)) ∧
    (update_status u r id = none ↔ (kvGet r id = none ∧ kvGet u id = none)) ∧
    ((update_task st id upd dur pa).2.error = none ↔
      ∃ st2, (dispatch_update st upd.data).2 = .ok st2) := by
  intro u r id st upd dur pa
  refine ⟨?_, ?_, ?_, ?_, ?_⟩
  · rcases hres : kvGet r id with _ | res
    · rcases hupd : kvGet u id with _ | upd' <;>
        simp [update_status, hres, hupd]
    · rcases herr : res.error with _ | msg <;>
        simp [update_status, hres, herr]
  · rcases hres : kvGet r id with _ | res
    · rcases hupd : kvGet u id with _ | upd' <;>
        simp [update_status, hres, hupd]
    · rcases herr : res.error with _ | msg <;>
        simp [update_status, hres, herr]
  · rcases hres : kvGet r id with _ | res
    · rcases hupd : kvGet u id with _ | upd' <;>
        simp [update_status, hres, hupd]
    · rcases herr : res.error with _ | msg <;>
        simp [update_status, hres, herr]
  · rcases hres : kvGet r id with _ | res
    · rcases hupd : kvGet u id with _ | upd' <;>
        simp [update_status, hres, hupd]
    · rcases herr : res.error with _ | msg <;>
        simp [update_status, hres, herr]
  · rcases hd : (dispatch_update st upd.data).2 with e | st2 <;>
      simp [update_task, hd]

/-- C9: `Index::document` fails with `SchemaMissing` (and in particular
never answers `Ok`) whenever the index stores no schema, whatever the
attributes filter and the requested document id. -/
theorem index_document_schema_missing :
    ∀ (st : IndexState) (attributes : Option (List String)) (document_id : Nat),
    st.main.schema = none →
    Index.document st attributes document_id = .error Error.SchemaMissing ∧
    ∀ d : Option Doc, Index.document st attributes document_id ≠ .ok d := by
  intro st attrs did h
  constructor
  · simp [Index.document, h]
  · intro d
    simp [Index.document, h]

/-- Witness for C9 at a concrete input: an empty index (no schema, and
document id 42 absent from DocumentsFields). -/
theorem index_document_schema_missing_witness :
    Index.document IndexState.empty none 42 = .error Error.SchemaMissing ∧
    ∀ d : Option Doc, Index.document IndexState.empty none 42 ≠ .ok d :=
  index_document_schema_missing IndexState.empty none 42 rfl

/-- C10: `store::clear` empties all eight sub-databases, the Updates and
UpdatesResults stores included; afterwards `all_updates_status` is empty
and `next_update_id` restarts from 0. -/
theorem store_clear_spec :
    ∀ st : IndexState,
    store_clear st = IndexState.empty ∧
    (store_clear st).main = MainStore.empty ∧
    (store_clear st).postings_lists = [] ∧
    (store_clear st).documents_fields = [] ∧
    (store_clear st).documents_fields_counts = [] ∧
    (store_clear st).synonyms = [] ∧
    (store_clear st).docs_words = [] ∧
    (store_clear st).updates = [] ∧
    (store_clear st).updates_results = [] ∧
    all_updates_status (store_clear st).updates (store_clear st).updates_results = [] ∧
    next_update_id (store_clear st).updates (store_clear st).updates_results = 0 := by
  intro st
  exact ⟨rfl, rfl, rfl, rfl, rfl, rfl, rfl, rfl, rfl, rfl, rfl⟩

/-! ## Stop-word update lemmas and C5 -/

theorem mem_listDiff (a b : List String) (w : String) :
    w ∈ listDiff a b ↔ w ∈ a ∧ ¬ w ∈ b := by
  simp [listDiff, List.mem_filter]

theorem apply_stop_words_addition_postings (st : IndexState)
    (addition : List String) (w : String) (hw : w ∈ addition) :
    alGet (apply_stop_words_addition st addition).postings_lists w = none := by
  rw [alGet_eq_none]
  intro p hp
  simp only [apply_stop_words_addition, List.mem_filter] at hp
  intro hpw
  rw [hpw] at hp
  simp [hw] at hp

theorem apply_stop_words_addition_words_fst (st : IndexState)
    (addition : List String) (w : String) (hw : w ∈ addition) :
    ∀ ws, (apply_stop_words_addition st addition).main.words_fst = some ws →
      ¬ w ∈ ws := by
  intro ws hws
  simp only [apply_stop_words_addition] at hws
  rcases hold : st.main.words_fst with _ | words
  · rw [hold] at hws; simp at hws
  · rw [hold] at hws
    simp only [Option.some.injEq] at hws
    rw [← hws, mem_listDiff]
    intro hcontra
    exact hcontra.2 hw

theorem apply_stop_words_deletion_postings (st : IndexState)
    (deletion : List String) :
    (apply_stop_words_deletion st deletion).postings_lists = st.postings_lists := rfl

theorem apply_stop_words_deletion_words_fst (st : IndexState)
    (deletion : List String) :
    (apply_stop_words_deletion st deletion).main.words_fst = st.main.words_fst := rfl

/-- C5: `apply_stop_words_update` diffs the requested stop-word set against
the stored stop-words FST; every genuinely new stop word loses its posting
list and disappears from the main words FST, and the function reports that
a full reindex is required exactly when some stored stop word is no longer
requested (the deletion set is non-empty). -/
theorem apply_stop_words_update_spec :
    ∀ (st : IndexState) (stop_words : List String),
    (∀ w, w ∈ stop_words → ¬ w ∈ (st.main.stop_words_fst).getD [] →
      alGet (apply_stop_words_update st stop_words).1.postings_lists w = none ∧
      ∀ ws, (apply_stop_words_update st stop_words).1.main.words_fst = some ws →
        ¬ w ∈ ws) ∧
    ((apply_stop_words_update st stop_words).2 = true ↔
      ∃ w, w ∈ (st.main.stop_words_fst).getD [] ∧ ¬ w ∈ stop_words) := by
  intro st stop_words
  have hunfold : apply_stop_words_update st stop_words =
      (let st1 :=
        if (stop_words.filter
            (fun w => ¬ ((st.main.stop_words_fst).getD []).contains w)).isEmpty
        then st
        else apply_stop_words_addition st
          (stop_words.filter
            (fun w => ¬ ((st.main.stop_words_fst).getD []).contains w))
       if (((st.main.stop_words_fst).getD []).filter
            (fun w => ¬ stop_words.contains w)).isEmpty
       then (st1, false)
       else (apply_stop_words_deletion st1
          (((st.main.stop_words_fst).getD []).filter
            (fun w => ¬ stop_words.contains w)), true)) := rfl
  constructor
  · intro w hw hwold
    have hwadd : w ∈ stop_words.filter
        (fun x => ¬ ((st.main.stop_words_fst).getD []).contains x) := by
      rw [List.mem_filter]
      exact ⟨hw, by simpa using hwold⟩
    have haddne : (stop_words.filter
        (fun x => ¬ ((st.main.stop_words_fst).getD []).contains x)).isEmpty = false := by
      cases he : (stop_words.filter
          (fun x => ¬ ((st.main.stop_words_fst).getD []).contains x)).isEmpty
      · rfl
      · rw [List.isEmpty_iff] at he
        rw [he] at hwadd
        simp at hwadd
    rw [hunfold]
    simp only [haddne]
    cases hdel : (((st.main.stop_words_fst).getD []).filter
        (fun x => ¬ stop_words.contains x)).isEmpty <;>
      simp only [hdel, Bool.false_eq_true, if_false, if_true] <;>
      exact ⟨apply_stop_words_addition_postings st _ w hwadd,
        apply_stop_words_addition_words_fst st _ w hwadd⟩
  · rw [hunfold]
    cases hdel : (((st.main.stop_words_fst).getD []).filter
        (fun x => ¬ stop_words.contains x)).isEmpty
    · simp only [hdel, Bool.false_eq_true, if_false, if_true]
      constructor
      · intro _
        have hne : (((st.main.stop_words_fst).getD []).filter
            (fun x => ¬ stop_words.contains x)) ≠ [] := by
          intro hnil
          rw [hnil] at hdel
          simp at hdel
        rcases List.exists_mem_of_ne_nil _ hne with ⟨w, hwdel⟩
        rw [List.mem_filter] at hwdel
        refine ⟨w, hwdel.1, ?_⟩
        simpa using hwdel.2
      · intro _
        simp
    · simp only [hdel, if_true]
      constructor
      · intro h
        simp at h
      · rintro ⟨w, hwold, hwnotnew⟩
        rw [List.isEmpty_iff] at hdel
        have hmem : w ∈ (((st.main.stop_words_fst).getD []).filter
            (fun x => ¬ stop_words.contains x)) := by
          rw [List.mem_filter]
          exact ⟨hwold, by simpa using hwnotnew⟩
        rw [hdel] at hmem
        simp at hmem

/-! ## Document-route lemmas and C7 -/

theorem find_identifier_eq_none (d : Doc) :
    find_identifier d = none ↔
      ∀ kv ∈ d, containsSub (toLowerStr kv.1) "id" = false := by
  simp only [find_identifier, List.find?_eq_none, List.mem_map]
  constructor
  · intro h kv hkv
    have := h kv.1 ⟨kv, hkv, rfl⟩
    simpa using this
  · rintro h key ⟨kv, hkv, rfl⟩
    simpa using h kv hkv

theorem find_identifier_eq_some (d : Doc) (k : String) :
    find_identifier d = some k →
      ∃ kv ∈ d, containsSub (toLowerStr kv.1) "id" = true := by
  intro h
  have hp := List.find?_some h
  have hmem := List.mem_of_find?_eq_some h
  rcases List.mem_map.mp hmem with ⟨kv, hkv, hfst⟩
  exact ⟨kv, hkv, by rw [hfst]; exact hp⟩

theorem push_documents_addition_get (u : KVStore UpdateRec)
    (r : KVStore ProcessedUpdateResult) (docs : List Doc) ( is_partial : Bool)
    (now : Nat) :
    kvGet (push_documents_addition u r docs is_partial now).1
        (push_documents_addition u r docs is_partial now).2 =
      some { data := if is_partial then UpdateData.DocumentsPartial docs
                     else UpdateData.DocumentsAddition docs,
             enqueued_at := now } := by
  simp [push_documents_addition, kvGet, kvPut, alGet_alPut_same]

/-- C7: when the index has no schema, the documents-update handler answers
400 "Could not infer a schema" exactly when there is no identifier query
parameter and no key of the first submitted document contains "id"
(case-insensitively); otherwise it answers 202 Accepted with the id under
which the documents-addition update was enqueued. -/
theorem update_multiple_documents_spec :
    ∀ (st : IndexState) (q : Option String) (data : List Doc)
      ( is_partial : Bool) (now : Nat),
    st.main.schema = none →
    (((update_multiple_documents st q data is_partial now).2 =
        .badRequest "Could not infer a schema") ↔
      (q = none ∧ ∀ d, data.head? = some d →
        ∀ kv ∈ d, containsSub (toLowerStr kv.1) "id" = false)) ∧
    ((q ≠ none ∨ data.head?.bind find_identifier ≠ none) →
      ∃ uid st2,
        update_multiple_documents st q data is_partial now = (st2, .accepted uid) ∧
        kvGet st2.updates uid = some
          { data := if is_partial then UpdateData.DocumentsPartial data
                    else UpdateData.DocumentsAddition data,
            enqueued_at := now }) := by
  intro st q data is_partial now hschema
  cases q with
  | some id =>
    constructor
    · simp [update_multiple_documents, hschema]
    · intro _
      simp only [update_multiple_documents, hschema]
      exact ⟨_, _, rfl, push_documents_addition_get _ _ _ _ _⟩
  | none =>
    rcases hf : data.head?.bind find_identifier with _ | id
    · have hres : update_multiple_documents st none data is_partial now
          = (st, .badRequest "Could not infer a schema") := by
        simp [update_multiple_documents, hschema, hf]
      constructor
      · rw [hres]
        apply iff_of_true rfl
        refine ⟨rfl, ?_⟩
        intro d hd kv hkv
        rcases hh : data.head? with _ | d'
        · rw [hh] at hd; simp at hd
        · rw [hh] at hd
          simp only [Option.some.injEq] at hd
          rw [hh] at hf
          rw [Option.some_bind] at hf
          subst hd
          exact (find_identifier_eq_none _).mp hf kv hkv
      · intro hcase
        rcases hcase with hq | hfind
        · exact absurd rfl hq
        · exact absurd rfl hfind
    · constructor
      · have hres : (update_multiple_documents st none data is_partial now).2
            = .accepted (push_documents_addition
                (push_settings_update st.updates st.updates_results
                  { SettingsUpdate.default with identifier := .Update id } now).1
                st.updates_results data is_partial now).2 := by
          simp [update_multiple_documents, hschema, hf]
        rw [hres]
        apply iff_of_false (by simp)
        rintro ⟨-, hall⟩
        rcases hh : data.head? with _ | d
        · rw [hh] at hf; simp at hf
        · rw [hh] at hf
          rw [Option.some_bind] at hf
          rcases find_identifier_eq_some d id hf with ⟨kv, hkv, htrue⟩
          have hfalse := hall d hh kv hkv
          rw [hfalse] at htrue
          simp at htrue
      · intro _
        simp only [update_multiple_documents, hschema, hf]
        exact ⟨_, _, rfl, push_documents_addition_get _ _ _ _ _⟩

/-- Witness for C7 at concrete inputs: on an empty index, a document whose
only key has no "id" substring is refused with 400, while a document keyed
"uid" is enqueued with 202. -/
theorem update_multiple_documents_witness :
    (((update_multiple_documents IndexState.empty none
        [[("title", JVal.str "hello")]] false 7).2 =
      .badRequest "Could not infer a schema") ↔
      ((none : Option String) = none ∧
        ∀ d, ([[("title", JVal.str "hello")]] : List Doc).head? = some d →
          ∀ kv ∈ d, containsSub (toLowerStr kv.1) "id" = false)) ∧
    (((none : Option String) ≠ none ∨
        ([[("title", JVal.str "hello")]] : List Doc).head?.bind find_identifier ≠ none) →
      ∃ uid st2,
        update_multiple_documents IndexState.empty none
          [[("title", JVal.str "hello")]] false 7 = (st2, .accepted uid) ∧
        kvGet st2.updates uid = some
          { data := if false then UpdateData.DocumentsPartial [[("title", JVal.str "hello")]]
                    else UpdateData.DocumentsAddition [[("title", JVal.str "hello")]],
            enqueued_at := 7 }) :=
  update_multiple_documents_spec IndexState.empty none
    [[("title", JVal.str "hello")]] false 7 rfl

/-! ## all_updates_status lemmas and C3 -/

theorem update_status_statusId (u : KVStore UpdateRec)
    (r : KVStore ProcessedUpdateResult)
    (hr : ∀ p ∈ r, (p.2).update_id = p.1) :
    ∀ id s, update_status u r id = some s → s.statusId = id := by
  intro id s h
  rcases hres : kvGet r id with _ | res
  · rcases hupd : kvGet u id with _ | upd <;>
      simp only [update_status, hres, hupd] at h
    · exact absurd h (by simp)
    · cases h
      rfl
  · have hid := hr (id, res) (alGet_mem r id res hres)
    simp only [update_status, hres] at h
    by_cases herr : res.error.isSome
    · rw [if_pos herr] at h
      cases h
      exact hid
    · rw [if_neg herr] at h
      cases h
      exact hid

theorem update_status_isSome_of_result (u : KVStore UpdateRec)
    (r : KVStore ProcessedUpdateResult) (id : Nat)
    (h : (kvGet r id).isSome) : (update_status u r id).isSome := by
  rcases hres : kvGet r id with _ | res
  · rw [hres] at h; simp at h
  · simp only [update_status, hres]
    by_cases herr : res.error.isSome <;> simp [herr]

theorem map_statusId_filterMap (u : KVStore UpdateRec)
    (r : KVStore ProcessedUpdateResult)
    (hr : ∀ p ∈ r, (p.2).update_id = p.1) :
    ∀ l : List Nat,
      (l.filterMap (update_status u r)).map UpdateStatus.statusId
        = l.filter (fun id => (update_status u r id).isSome) := by
  intro l
  induction l with
  | nil => rfl
  | cons a l ih =>
    rcases h : update_status u r a with _ | s
    · simp [List.filterMap_cons, h, List.filter_cons, ih]
    · have hsid := update_status_statusId u r hr a s h
      simp [List.filterMap_cons, h, List.filter_cons, ih, hsid]

theorem all_updates_fold_fst (u : KVStore UpdateRec)
    (r : KVStore ProcessedUpdateResult) :
    ∀ (l : List Nat) (acc : List UpdateStatus × Nat),
      (l.foldl (fun (acc : List UpdateStatus × Nat) id =>
          match update_status u r id with
          | some s => (acc.1 ++ [s], id)
          | none => acc) acc).1
        = acc.1 ++ l.filterMap (update_status u r) := by
  intro l
  induction l with
  | nil => intro acc; simp
  | cons a l ih =>
    intro acc
    rcases h : update_status u r a with _ | s
    · simp only [List.foldl_cons, h, List.filterMap_cons]
      exact ih acc
    · simp only [List.foldl_cons, h, List.filterMap_cons]
      rw [ih ((acc.1 ++ [s], a))]
      simp

theorem all_updates_fold_snd (u : KVStore UpdateRec)
    (r : KVStore ProcessedUpdateResult) (l : List Nat) (a : Nat)
    (acc : List UpdateStatus × Nat) (h : (update_status u r a).isSome) :
    ((l ++ [a]).foldl (fun (acc : List UpdateStatus × Nat) id =>
        match update_status u r id with
        | some s => (acc.1 ++ [s], id)
        | none => acc) acc).2 = a := by
  rw [List.foldl_append]
  rcases hs : update_status u r a with _ | s
  · rw [hs] at h; simp at h
  · simp [hs]

/-- C3: for every state of the two update stores whose result records are
keyed by their own update id, the list `all_updates_status` returns
reports each update id at most once, also when an id is present in both
stores. -/
theorem all_updates_status_nodup :
    ∀ (u : KVStore UpdateRec) (r : KVStore ProcessedUpdateResult),
    (∀ p ∈ r, (p.2).update_id = p.1) →
    ((all_updates_status u r).map UpdateStatus.statusId).Nodup := by
  intro u r hr
  unfold all_updates_status
  have hEta : (fun id => update_status u r id) = update_status u r := rfl
  rcases hR : kvLastKey r with _ | lastR
  · rcases hU : kvLastKey u with _ | lastU
    · simp
    · simp only [List.nil_append, hEta]
      rw [map_statusId_filterMap u r hr]
      exact (List.nodup_range' _ _).filter _
  · simp only []
    have hsome : (update_status u r lastR).isSome := by
      rcases kvLastKey_mem r lastR hR with ⟨v, hv⟩
      exact update_status_isSome_of_result u r lastR (mem_alGet_isSome r lastR v hv)
    have hsnd : ((List.range (lastR + 1)).foldl
        (fun (acc : List UpdateStatus × Nat) id =>
          match update_status u r id with
          | some s => (acc.1 ++ [s], id)
          | none => acc) ([], 0)).2 = lastR := by
      rw [List.range_succ]
      exact all_updates_fold_snd u r _ lastR _ hsome
    have hfst : ((List.range (lastR + 1)).foldl
        (fun (acc : List UpdateStatus × Nat) id =>
          match update_status u r id with
          | some s => (acc.1 ++ [s], id)
          | none => acc) ([], 0)).1
        = (List.range (lastR + 1)).filterMap (update_status u r) :=
      all_updates_fold_fst u r _ _
    rcases hU : kvLastKey u with _ | lastU
    · simp only []
      rw [hfst, map_statusId_filterMap u r hr]
      exact (List.nodup_range _).filter _
    · simp only []
      rw [hfst, hsnd, hEta, List.map_append,
        map_statusId_filterMap u r hr, map_statusId_filterMap u r hr]
      apply List.Nodup.append
      · exact (List.nodup_range _).filter _
      · exact (List.nodup_range' _ _).filter _
      · intro x hx1 hx2
        have hx1m := List.mem_of_mem_filter hx1
        have hx2m := List.mem_of_mem_filter hx2
        rw [List.mem_range] at hx1m
        rw [List.mem_range'_1] at hx2m
        omega

/-- Witness for C3 at a concrete input: update id 0 is present in both
stores, id 1 only in the Updates store. -/
theorem all_updates_status_nodup_witness :
    ((all_updates_status
        [(0, { data := .ClearAll, enqueued_at := 3 }),
         (1, { data := .ClearAll, enqueued_at := 4 })]
        [(0, { update_id := 0, update_type := .ClearAll, error := none,
               duration := 1, enqueued_at := 3, processed_at := 5 })]).map
      UpdateStatus.statusId).Nodup :=
  all_updates_status_nodup
    [(0, { data := .ClearAll, enqueued_at := 3 }),
     (1, { data := .ClearAll, enqueued_at := 4 })]
    [(0, { update_id := 0, update_type := .ClearAll, error := none,
           duration := 1, enqueued_at := 3, processed_at := 5 })]
    (by decide)

/-! ## Settings-applier lemmas, C6 and C8 -/

theorem except_bind_ok {A B : Type} (a : A) (f : A → Except Error B) :
    (Except.ok a : Except Error A) >>= f = f a := rfl

theorem except_bind_error {A B : Type} (e : Error) (f : A → Except Error B) :
    (Except.error e : Except Error A) >>= f = .error e := rfl

theorem register_one_identifier (s : Schema) (n : String) :
    (s.register_one n).identifier = s.identifier := by
  unfold Schema.register_one
  split <;> rfl

theorem register_one_indexed (s : Schema) (n : String) :
    (s.register_one n).indexed = s.indexed := by
  unfold Schema.register_one
  split <;> rfl

theorem register_all_identifier (s : Schema) :
    ∀ names : List String, (s.register_all names).identifier = s.identifier := by
  suffices h : ∀ (names : List String) (t : Schema),
      (t.register_all names).identifier = t.identifier by
    intro names; exact h names s
  intro names
  induction names with
  | nil => intro t; rfl
  | cons n ns ih =>
    intro t
    show ((t.register_one n).register_all ns).identifier = t.identifier
    rw [ih (t.register_one n), register_one_identifier]

theorem register_all_indexed (s : Schema) :
    ∀ names : List String, (s.register_all names).indexed = s.indexed := by
  suffices h : ∀ (names : List String) (t : Schema),
      (t.register_all names).indexed = t.indexed by
    intro names; exact h names s
  intro names
  induction names with
  | nil => intro t; rfl
  | cons n ns ih =>
    intro t
    show ((t.register_one n).register_all ns).indexed = t.indexed
    rw [ih (t.register_one n), register_one_indexed]

theorem settings_apply_ranking_rules_ok (schema : Schema) (st : IndexState)
    (u : UpdateState (List RankingRule)) :
    ∃ sch2 st2 r, settings_apply_ranking_rules schema st u = .ok (sch2, st2, r) ∧
      sch2.identifier = schema.identifier ∧ sch2.indexed = schema.indexed ∧
      st2.main.schema = st.main.schema := by
  cases u <;>
      simp [settings_apply_ranking_rules, Schema.update_ranked, except_bind_ok,
        register_all_identifier, register_all_indexed] <;>
    exact ⟨_, _, ⟨rfl, rfl⟩, rfl, rfl, rfl⟩

theorem settings_apply_index_new_fields_pres (schema : Schema) (u : UpdateState Bool) :
    (settings_apply_index_new_fields schema u).identifier = schema.identifier ∧
    (settings_apply_index_new_fields schema u).indexed = schema.indexed := by
  cases u <;> exact ⟨rfl, rfl⟩

theorem settings_apply_searchable_ok (schema : Schema)
    (u : UpdateState (List String)) (hidx : schema.indexed = []) :
    ∃ sch2 r, settings_apply_searchable schema u = .ok (sch2, r) ∧
      sch2.identifier = schema.identifier := by
  cases u <;>
    simp [settings_apply_searchable, Schema.update_indexed, hidx,
      List.isPrefixOf, except_bind_ok, register_all_identifier]

theorem settings_apply_displayed_ok (schema : Schema) (u : UpdateState (List String)) :
    ∃ sch2, settings_apply_displayed schema u = .ok sch2 ∧
      sch2.identifier = schema.identifier := by
  cases u <;>
    simp [settings_apply_displayed, Schema.update_displayed, register_all_identifier]

theorem settings_apply_ranking_distinct_schema (st : IndexState)
    (u : UpdateState String) :
    (settings_apply_ranking_distinct st u).main.schema = st.main.schema := by
  cases u <;> rfl

theorem apply_stop_words_update_schema (st : IndexState) (stop_words : List String) :
    (apply_stop_words_update st stop_words).1.main.schema = st.main.schema := by
  unfold apply_stop_words_update
  simp only []
  split <;> split <;> rfl

theorem settings_apply_stop_words_schema (st : IndexState)
    (u : UpdateState (List String)) :
    (settings_apply_stop_words st u).1.main.schema = st.main.schema := by
  cases u with
  | Nothing => rfl
  | Clear => exact apply_stop_words_update_schema st []
  | Update stop_words => exact apply_stop_words_update_schema st stop_words

theorem settings_apply_synonyms_schema (st : IndexState)
    (u : UpdateState (List (String × List String))) :
    (settings_apply_synonyms st u).main.schema = st.main.schema := by
  cases u <;> rfl

theorem rebuild_words_fst_from_postings_schema (st : IndexState) :
    (rebuild_words_fst_from_postings st).main.schema = st.main.schema := rfl

theorem foldl_index_document_main (schema : Schema) (doc_of : Nat → Doc) :
    ∀ (l : List Nat) (acc : IndexState),
      (l.foldl (fun acc docid => index_document schema acc docid (doc_of docid)) acc).main
        = acc.main := by
  intro l
  induction l with
  | nil => intro acc; rfl
  | cons a l ih =>
    intro acc
    rw [List.foldl_cons, ih]
    rfl

theorem reindex_all_documents_schema (st : IndexState) :
    (reindex_all_documents st).main.schema = st.main.schema := by
  unfold reindex_all_documents
  rcases h : st.main.schema with _ | schema
  · simp only []
    exact h
  · simp only []
    rw [rebuild_words_fst_from_postings_schema,
      foldl_index_document_main schema (fun docid => stored_document_fields st schema docid)]
    exact h

/-- C6: when the index has no stored schema, `apply_settings_update` fails
with `MissingIdentifier` unless the settings carry `identifier =
Update(id)` (the failure is raised before any store write, so the aborted
transaction leaves the index unchanged); with `Update(id)` it creates a
fresh schema whose identifier is `id` and stores it. -/
theorem apply_settings_update_schema_creation :
    ∀ (st : IndexState) (settings : SettingsUpdate),
    st.main.schema = none →
    ((settings.identifier = .Nothing ∨ settings.identifier = .Clear) →
      apply_settings_update st settings = .error Error.MissingIdentifier) ∧
    (∀ id, settings.identifier = .Update id →
      ∃ st2 sch, apply_settings_update st settings = .ok st2 ∧
        st2.main.schema = some sch ∧ sch.identifier = id) := by
  intro st settings hschema
  constructor
  · intro hident
    have hderive : settings_derive_schema st settings.identifier
        = .error .MissingIdentifier := by
      rcases hident with h | h <;> simp [settings_derive_schema, hschema, h]
    simp [apply_settings_update, hderive, except_bind_error]
  · intro id hident
    have hderive : settings_derive_schema st (UpdateState.Update id)
        = .ok (Schema.with_identifier id) := by
      simp [settings_derive_schema, hschema]
    obtain ⟨sch1, st1, r1, h1, h1id, h1idx, h1schema⟩ :=
      settings_apply_ranking_rules_ok (Schema.with_identifier id) st
        settings.ranking_rules
    obtain ⟨h2id, h2idx⟩ :=
      settings_apply_index_new_fields_pres sch1 settings.index_new_fields
    obtain ⟨sch3, r2, h3, h3id⟩ :=
      settings_apply_searchable_ok
        (settings_apply_index_new_fields sch1 settings.index_new_fields)
        settings.searchable_attributes (by rw [h2idx, h1idx]; rfl)
    obtain ⟨sch4, h4, h4id⟩ :=
      settings_apply_displayed_ok sch3 settings.displayed_attributes
    have hsetid : sch4.identifier = id := by
      rw [h4id, h3id, h2id, h1id]
      rfl
    have hident_step :
        settings_apply_identifier sch4
          (settings_apply_ranking_distinct st1 settings.ranking_distinct)
          (UpdateState.Update id)
        = .ok (put_schema
            (settings_apply_ranking_distinct st1 settings.ranking_distinct)
            sch4, true) := by
      simp [settings_apply_identifier, Schema.set_identifier, hsetid,
        except_bind_ok]
    simp only [apply_settings_update, hderive, except_bind_ok, h1, h3, h4,
      hident_step, hident, Bool.or_true, Bool.true_or, if_true]
    refine ⟨_, sch4, rfl, ?_, hsetid⟩
    rw [reindex_all_documents_schema, settings_apply_synonyms_schema,
      settings_apply_stop_words_schema]
    rfl

/-- Witness for C6 at concrete inputs: on an empty index, a settings update
carrying only `identifier = Update "uid"` creates and stores the schema,
while the all-absent settings update fails with `MissingIdentifier`. -/
theorem apply_settings_update_schema_creation_witness :
    ((({ SettingsUpdate.default with identifier := .Update "uid" }
          : SettingsUpdate).identifier = .Nothing ∨
      ({ SettingsUpdate.default with identifier := .Update "uid" }
          : SettingsUpdate).identifier = .Clear) →
      apply_settings_update IndexState.empty
        { SettingsUpdate.default with identifier := .Update "uid" }
        = .error Error.MissingIdentifier) ∧
    (∀ id, ({ SettingsUpdate.default with identifier := .Update "uid" }
          : SettingsUpdate).identifier = .Update id →
      ∃ st2 sch,
        apply_settings_update IndexState.empty
          { SettingsUpdate.default with identifier := .Update "uid" } = .ok st2 ∧
        st2.main.schema = some sch ∧ sch.identifier = id) :=
  apply_settings_update_schema_creation IndexState.empty
    { SettingsUpdate.default with identifier := .Update "uid" } rfl

/-- C8: a settings update whose identifier field is `Clear`, applied to an
index that has a schema, behaves exactly like the same update with the
identifier field left at `Nothing` followed by one final deletion of the
schema entry — i.e. the schema is deleted last, after any required
reindexing; and `delete_schema` changes no store content other than the
schema entry. -/
theorem apply_settings_identifier_clear_last :
    ∀ (st : IndexState) (settings : SettingsUpdate) (sch : Schema),
    st.main.schema = some sch →
    settings.identifier = .Clear →
    (apply_settings_update st settings
      = (apply_settings_update st { settings with identifier := .Nothing }).map
          delete_schema) ∧
    (∀ st2 : IndexState,
      (delete_schema st2).main.schema = none ∧
      (delete_schema st2).main.words_fst = st2.main.words_fst ∧
      (delete_schema st2).main.stop_words_fst = st2.main.stop_words_fst ∧
      (delete_schema st2).main.synonyms_fst = st2.main.synonyms_fst ∧
      (delete_schema st2).main.ranking_rules = st2.main.ranking_rules ∧
      (delete_schema st2).main.ranking_distinct = st2.main.ranking_distinct ∧
      (delete_schema st2).main.customs = st2.main.customs ∧
      (delete_schema st2).main.number_of_documents = st2.main.number_of_documents ∧
      (delete_schema st2).postings_lists = st2.postings_lists ∧
      (delete_schema st2).documents_fields = st2.documents_fields ∧
      (delete_schema st2).documents_fields_counts = st2.documents_fields_counts ∧
      (delete_schema st2).synonyms = st2.synonyms ∧
      (delete_schema st2).docs_words = st2.docs_words ∧
      (delete_schema st2).updates = st2.updates ∧
      (delete_schema st2).updates_results = st2.updates_results) := by
  intro st settings sch hschema hident
  constructor
  · have hderive : ∀ u : UpdateState String,
        settings_derive_schema st u = .ok sch := by
      intro u
      simp [settings_derive_schema, hschema]
    simp only [apply_settings_update, hident, hderive, except_bind_ok]
    cases h1 : settings_apply_ranking_rules sch st settings.ranking_rules with
    | error e => simp [except_bind_error, Except.map]
    | ok t =>
      obtain ⟨sch1, st1, r1⟩ := t
      simp only [except_bind_ok]
      cases h3 : settings_apply_searchable
          (settings_apply_index_new_fields sch1 settings.index_new_fields)
          settings.searchable_attributes with
      | error e => simp [except_bind_error, Except.map]
      | ok t2 =>
        obtain ⟨sch3, r2⟩ := t2
        simp only [except_bind_ok]
        cases h4 : settings_apply_displayed sch3 settings.displayed_attributes with
        | error e => simp [except_bind_error, Except.map]
        | ok sch4 =>
          simp only [except_bind_ok, settings_apply_identifier]
          simp [Except.map]
  · intro st2
    exact ⟨rfl, rfl, rfl, rfl, rfl, rfl, rfl, rfl, rfl, rfl, rfl, rfl, rfl,
      rfl, rfl⟩

/-- Witness for C8 at concrete inputs: an index holding the schema
"uid", and a settings update clearing the identifier. -/
theorem apply_settings_identifier_clear_last_witness :
    (apply_settings_update (put_schema IndexState.empty (Schema.with_identifier "uid"))
        { SettingsUpdate.default with identifier := .Clear }
      = (apply_settings_update (put_schema IndexState.empty (Schema.with_identifier "uid"))
          { ({ SettingsUpdate.default with identifier := .Clear } : SettingsUpdate)
            with identifier := .Nothing }).map delete_schema) ∧
    (∀ st2 : IndexState,
      (delete_schema st2).main.schema = none ∧
      (delete_schema st2).main.words_fst = st2.main.words_fst ∧
      (delete_schema st2).main.stop_words_fst = st2.main.stop_words_fst ∧
      (delete_schema st2).main.synonyms_fst = st2.main.synonyms_fst ∧
      (delete_schema st2).main.ranking_rules = st2.main.ranking_rules ∧
      (delete_schema st2).main.ranking_distinct = st2.main.ranking_distinct ∧
      (delete_schema st2).main.customs = st2.main.customs ∧
      (delete_schema st2).main.number_of_documents = st2.main.number_of_documents ∧
      (delete_schema st2).postings_lists = st2.postings_lists ∧
      (delete_schema st2).documents_fields = st2.documents_fields ∧
      (delete_schema st2).documents_fields_counts = st2.documents_fields_counts ∧
      (delete_schema st2).synonyms = st2.synonyms ∧
      (delete_schema st2).docs_words = st2.docs_words ∧
      (delete_schema st2).updates = st2.updates ∧
      (delete_schema st2).updates_results = st2.updates_results) :=
  apply_settings_identifier_clear_last
    (put_schema IndexState.empty (Schema.with_identifier "uid"))
    { SettingsUpdate.default with identifier := .Clear }
    (Schema.with_identifier "uid") rfl rfl

/-! ## Highlight lemmas and C4 -/

/-- C4: for every bare match, letting `query` be its automaton's query
string and `input` the matched word of its posting list, each `Highlight`
the match produces carries
`char_length = min (length input) (matched_prefix_len (pdl query input))`,
where `pdl` is the `prefix_damerau_levenshtein` collaborator.  `pdl` is
quantified over functions whose matched prefix never exceeds the input
when the query fits inside it, and covers the whole input when the query
is longer (the DP scans prefixes of the input; the code handles the longer
query by covering the input whole); `input` is assumed shorter than 2^16
so the u16 cast does not truncate. -/
theorem highlights_char_length_spec :
    ∀ (pdl : List Nat → List Nat → Nat × Nat)
      (automatons : List QueryWordAutomaton) (arena : List PostingsListView)
      (searchable_attrs : Option ReorderedAttrs) (schema : Schema),
    (∀ q w, q.length ≤ w.length → (pdl q w).2 ≤ w.length) →
    (∀ q w, w.length < q.length → w.length ≤ (pdl q w).2) →
    (∀ raw : RawDocument,
      highlights_from_raw_document pdl raw automatons arena searchable_attrs schema
        = raw.bare_matches.flatMap
            (bare_match_highlights pdl automatons arena searchable_attrs schema)) ∧
    (∀ bm : BareMatch,
      (arena.getD bm.postings_list ⟨[], []⟩).input.length < 65536 →
      ∀ h ∈ bare_match_highlights pdl automatons arena searchable_attrs schema bm,
        h.char_length =
          min (arena.getD bm.postings_list ⟨[], []⟩).input.length
            (pdl (automatons.getD bm.query_index ⟨[]⟩).query
              (arena.getD bm.postings_list ⟨[], []⟩).input).2) := by
  intro pdl automatons arena searchable_attrs schema hle hge
  constructor
  · intro raw
    rfl
  · intro bm hlen h hmem
    simp only [bare_match_highlights, List.mem_filterMap] at hmem
    obtain ⟨di, hdi, hsome⟩ := hmem
    set input := (arena.getD bm.postings_list ⟨[], []⟩).input with hinput
    set query := (automatons.getD bm.query_index ⟨[]⟩).query with hquery
    by_cases hql : query.length > input.length
    · rw [if_pos hql] at hsome
      rcases hfid : schema.indexed_pos_to_field_id
          (((searchable_attrs.bind (fun sa => sa.reverse di.attr)).getD di.attr)) with _ | fid
      · rw [hfid] at hsome
        simp at hsome
      · rw [hfid] at hsome
        simp only [Option.some.injEq] at hsome
        have hchar : h.char_length = input.length % 65536 := by
          rw [← hsome]
        rw [hchar, Nat.mod_eq_of_lt hlen]
        have := hge query input hql
        omega
    · push_neg at hql
      rw [if_neg (by omega : ¬ query.length > input.length)] at hsome
      rcases hfid : schema.indexed_pos_to_field_id
          (((searchable_attrs.bind (fun sa => sa.reverse di.attr)).getD di.attr)) with _ | fid
      · rw [hfid] at hsome
        simp at hsome
      · rw [hfid] at hsome
        simp only [Option.some.injEq] at hsome
        have hplen := hle query input hql
        have hchar : h.char_length = (pdl query input).2 % 65536 := by
          rw [← hsome]
        rw [hchar, Nat.mod_eq_of_lt (by omega)]
        omega

/-- A concrete total model of the `prefix_damerau_levenshtein`
collaborator used by the C4 witness: distance 0 and a matched prefix of
`min |query| |input|` characters, capped below by the input length when
the query is longer. -/
def pdl_model (q w : List Nat) : Nat × Nat :=
  (0, if w.length < q.length then w.length else min q.length w.length)

/-- Witness for C4 at concrete inputs: one automaton "hel" matching the
posting list of word "hello" with a single DocIndex entry. -/
theorem highlights_char_length_spec_witness :
    (∀ raw : RawDocument,
      highlights_from_raw_document pdl_model raw
          [⟨[104, 101, 108]⟩] [⟨[104, 101, 108, 108, 111],
            [{ document_id := 1, attr := 0, word_index := 0, char_index := 0,
               char_length := 5 }]⟩] none
          (Schema.with_identifier "uid")
        = raw.bare_matches.flatMap
            (bare_match_highlights pdl_model [⟨[104, 101, 108]⟩]
              [⟨[104, 101, 108, 108, 111],
                [{ document_id := 1, attr := 0, word_index := 0, char_index := 0,
                   char_length := 5 }]⟩] none (Schema.with_identifier "uid"))) ∧
    (∀ bm : BareMatch,
      (([⟨[104, 101, 108, 108, 111],
          [{ document_id := 1, attr := 0, word_index := 0, char_index := 0,
             char_length := 5 }]⟩] : List PostingsListView).getD
        bm.postings_list ⟨[], []⟩).input.length < 65536 →
      ∀ h ∈ bare_match_highlights pdl_model [⟨[104, 101, 108]⟩]
          [⟨[104, 101, 108, 108, 111],
            [{ document_id := 1, attr := 0, word_index := 0, char_index := 0,
               char_length := 5 }]⟩] none (Schema.with_identifier "uid") bm,
        h.char_length =
          min (([⟨[104, 101, 108, 108, 111],
              [{ document_id := 1, attr := 0, word_index := 0, char_index := 0,
                 char_length := 5 }]⟩] : List PostingsListView).getD
              bm.postings_list ⟨[], []⟩).input.length
            (pdl_model (([⟨[104, 101, 108]⟩] : List QueryWordAutomaton).getD
                bm.query_index ⟨[]⟩).query
              (([⟨[104, 101, 108, 108, 111],
                  [{ document_id := 1, attr := 0, word_index := 0, char_index := 0,
                     char_length := 5 }]⟩] : List PostingsListView).getD
                bm.postings_list ⟨[], []⟩).input).2) :=
  highlights_char_length_spec pdl_model [⟨[104, 101, 108]⟩]
    [⟨[104, 101, 108, 108, 111],
      [{ document_id := 1, attr := 0, word_index := 0, char_index := 0,
         char_length := 5 }]⟩] none (Schema.with_identifier "uid")
    (by
      intro q w hqw
      simp only [pdl_model]
      split
      · omega
      · omega)
    (by
      intro q w hwq
      simp only [pdl_model]
      split
      · omega
      · omega)

end Meili
